import Mathlib

/-!
Shallow embedding of the erudify exercise-selection and spaced-repetition
core, translated from the TypeScript sources:

* `src/lib/spaced-repetition.ts` — interval engine
  (`clampInterval`, `calculateNewInterval`, `calculateFailureInterval`,
  `updateWordStateSuccess`, `updateWordStateFailure`);
* `src/lib/exercises.ts` — selector and scorer
  (`getExerciseWords`, `exerciseContainsWord`, `getNewWords`,
  `getExerciseCandidates`, `selectNextExercise`, `selectNewExercise`,
  `updateWordSuccess`, `updateWordFailure`);
* `src/lib/domain/progress.ts`, `src/lib/domain/exercise.ts` — data model.

Modelling conventions:

* JavaScript numbers (timestamps in epoch milliseconds, interval seconds,
  multipliers) are modelled as `ℚ`; the only arithmetic the code performs is
  `+ - * /` by constants, which is exact in `ℚ`.  Success-streak counters and
  list indices are modelled as `ℕ`, the `largestOrderedWordIndex` accumulator
  (initialised to `-1`) as `ℤ`.
* JavaScript objects used as string/number-keyed maps (`progress.words`,
  `progress.exerciseLastSeen`, score breakdown records) are modelled as
  association lists in insertion order: lookup is `alookup`, and the object
  spread `{ ...m, [k]: v }` is `objUpdate` (replace in place if the key is
  present, append otherwise), matching JS insertion-order semantics.
* `Array.prototype.sort(cmp)` (stable since ES2019, and the comparators used
  here are consistent) is modelled by the stable `List.insertionSort` on the
  relation `cmp a b ≤ 0`; for a consistent comparator the stable sorted
  permutation is unique, so this is exact.
* Each call to `Date.now()` is one read from an external clock stream
  `clock : ℕ → ℚ`; functions that read the clock thread a read counter.
  `selectNextExercise` reads the clock once at its top, and each call to
  `getExerciseCandidates` performs one further read (this is what the source
  does; see the claims about time handling).  The `...At`-suffixed variants
  are the same bodies with the single wall-clock read made an explicit `now`
  parameter.
* The regular expression `/\p{Script=Han}/gu` used to count Chinese
  characters is modelled by `isHanChar`, covering the Unicode Han-script
  ranges (CJK Unified Ideographs, extensions, compatibility ideographs).
-/

/-- Configuration of the interval engine (`SpacedRepetitionConfig` in
`spaced-repetition.ts`). -/
structure SpacedRepetitionConfig where
  minIntervalSeconds : ℚ
  maxIntervalSeconds : ℚ
  earlyReviewMultiplier : ℚ
  goodReviewMultiplier : ℚ
  firstTimeSuccessIntervalSeconds : ℚ
deriving DecidableEq

/-- `DEFAULT_CONFIG` from `spaced-repetition.ts`:
min 30 s, max 365 days, early multiplier 1.05, good multiplier 5,
first-time success interval 7 days.  The TypeScript functions take the
config as an optional parameter defaulting to this value; the embedding
passes it explicitly. -/
def DEFAULT_CONFIG : SpacedRepetitionConfig :=
  { minIntervalSeconds := 30
    maxIntervalSeconds := 365 * 24 * 60 * 60
    earlyReviewMultiplier := 1.05
    goodReviewMultiplier := 5
    firstTimeSuccessIntervalSeconds := 7 * 24 * 60 * 60 }

/-- Per-word scheduling state (`WordState` in `spaced-repetition.ts`). -/
structure WordState where
  intervalSeconds : ℚ
  lastReviewed : ℚ
  consecutiveSuccesses : ℕ
deriving DecidableEq

/-- Result record of `calculateNewInterval`. -/
structure NewIntervalResult where
  newInterval : ℚ
  consecutiveSuccesses : ℕ
  wasEarlyReview : Bool
deriving DecidableEq

/-- Result record of `calculateFailureInterval`. -/
structure FailureIntervalResult where
  newInterval : ℚ
  consecutiveSuccesses : ℕ
deriving DecidableEq

/-- Change record for one word's state transition (`WordIntervalChange` in
`domain/progress.ts`); `oldIntervalSeconds` is nullable. -/
structure WordIntervalChange where
  word : String
  pinyin : String
  oldIntervalSeconds : Option ℚ
  newIntervalSeconds : ℚ
  nextReview : ℚ
  wasEarlyReview : Bool
  wasFailure : Bool
deriving DecidableEq

/-- Result record of `updateWordStateSuccess` / `updateWordStateFailure`. -/
structure WordStateUpdate where
  state : WordState
  change : WordIntervalChange
deriving DecidableEq

/-- `clampInterval` from `spaced-repetition.ts`:
`Math.max(min, Math.min(interval, max))`. -/
def clampInterval (interval : ℚ) (config : SpacedRepetitionConfig) : ℚ :=
  max config.minIntervalSeconds (min interval config.maxIntervalSeconds)

/-- `calculateNewInterval` from `spaced-repetition.ts`.  `state = none`
models the `!state` (first-time success) branch.  `isEarly` is
`completedAt < state.lastReviewed + state.intervalSeconds * 1000`; the early
branch returns `clampInterval(actualElapsedSeconds * earlyReviewMultiplier)`,
the good branch `clampInterval(actualElapsedSeconds * goodReviewMultiplier)`. -/
def calculateNewInterval (state : Option WordState) (completedAt : ℚ)
    (config : SpacedRepetitionConfig) : NewIntervalResult :=
  match state with
  | none =>
      { newInterval := config.firstTimeSuccessIntervalSeconds
        consecutiveSuccesses := 1
        wasEarlyReview := false }
  | some s =>
      let actualElapsedSeconds := (completedAt - s.lastReviewed) / 1000
      if completedAt < s.lastReviewed + s.intervalSeconds * 1000 then
        { newInterval :=
            clampInterval (actualElapsedSeconds * config.earlyReviewMultiplier) config
          consecutiveSuccesses := s.consecutiveSuccesses + 1
          wasEarlyReview := true }
      else
        { newInterval :=
            clampInterval (actualElapsedSeconds * config.goodReviewMultiplier) config
          consecutiveSuccesses := s.consecutiveSuccesses + 1
          wasEarlyReview := false }

/-- `calculateFailureInterval` from `spaced-repetition.ts`. -/
def calculateFailureInterval (config : SpacedRepetitionConfig) : FailureIntervalResult :=
  { newInterval := config.minIntervalSeconds
    consecutiveSuccesses := 0 }

/-- `updateWordStateSuccess` from `spaced-repetition.ts`. -/
def updateWordStateSuccess (word pinyin : String) (existingState : Option WordState)
    (completedAt : ℚ) (config : SpacedRepetitionConfig) : WordStateUpdate :=
  let r := calculateNewInterval existingState completedAt config
  { state :=
      { intervalSeconds := r.newInterval
        lastReviewed := completedAt
        consecutiveSuccesses := r.consecutiveSuccesses }
    change :=
      { word := word
        pinyin := pinyin
        oldIntervalSeconds := (existingState.map (·.intervalSeconds))
        newIntervalSeconds := r.newInterval
        nextReview := completedAt + r.newInterval * 1000
        wasEarlyReview := r.wasEarlyReview
        wasFailure := false } }

/-- `updateWordStateFailure` from `spaced-repetition.ts`.  It takes no prior
state at all; the reset is unconditional. -/
def updateWordStateFailure (word pinyin : String) (completedAt : ℚ)
    (config : SpacedRepetitionConfig) : WordStateUpdate :=
  let r := calculateFailureInterval config
  { state :=
      { intervalSeconds := r.newInterval
        lastReviewed := completedAt
        consecutiveSuccesses := r.consecutiveSuccesses }
    change :=
      { word := word
        pinyin := pinyin
        oldIntervalSeconds := none
        newIntervalSeconds := r.newInterval
        nextReview := completedAt + r.newInterval * 1000
        wasEarlyReview := false
        wasFailure := true } }

/-- Claim C1 (code evaluation at the failing input).  For the existing state
`{intervalSeconds := 1000, lastReviewed := 0, consecutiveSuccesses := 2}` and
`completedAt = 100000` (100 s after the last review, hence an early review),
`calculateNewInterval` with the default config returns the recomputed
interval `clamp(100 * 1.05) = 105`, not the current interval `1000`: the code
has no `max(candidate, currentIntervalSeconds)` floor, so early review does
shrink the interval below its pre-review value, contradicting the claim and
the repository's own spaced-repetition test suite. -/
theorem calculateNewInterval_early_review_no_floor :
    calculateNewInterval (some ⟨1000, 0, 2⟩) 100000 DEFAULT_CONFIG =
      ⟨105, 3, true⟩ ∧
    (calculateNewInterval (some ⟨1000, 0, 2⟩) 100000 DEFAULT_CONFIG).newInterval < 1000 := by
  constructor
  · simp only [calculateNewInterval, clampInterval, DEFAULT_CONFIG]
    norm_num
  · simp only [calculateNewInterval, clampInterval, DEFAULT_CONFIG]
    norm_num

/-- Claim C2, counterexample to the rounding part.  For the state
`{intervalSeconds := 1, lastReviewed := 0}` and `completedAt = 10100`
(10.1 s elapsed, past the 1 s interval, hence a good review), the candidate
is `10.1 * 5 = 50.5`, and `calculateNewInterval` returns exactly `50.5` —
not the nearest integer `51` claimed by the spec: the code performs no
rounding. -/
theorem calculateNewInterval_good_review_not_rounded :
    (calculateNewInterval (some ⟨1, 0, 2⟩) 10100 DEFAULT_CONFIG).newInterval = 101 / 2 ∧
    (calculateNewInterval (some ⟨1, 0, 2⟩) 10100 DEFAULT_CONFIG).newInterval ≠ 51 ∧
    (calculateNewInterval (some ⟨1, 0, 2⟩) 10100 DEFAULT_CONFIG).newInterval ≠ 50 := by
  refine ⟨?_, ?_, ?_⟩ <;>
    · simp only [calculateNewInterval, clampInterval, DEFAULT_CONFIG]
      norm_num

/-- Claim C2 as amended.  For every existing word state and completion time
`t` with `t ≥ lastReviewed + intervalSeconds * 1000` (on-time or overdue),
`calculateNewInterval` with the default config returns newInterval
`clamp(actualElapsed * 5)` with `actualElapsed = (t - lastReviewed) / 1000`
— the exact rational value, clamped to `[30, 31536000]` but not rounded —
increments `consecutiveSuccesses`, and reports `wasEarlyReview = false`. -/
theorem calculateNewInterval_good_review_formula (s : WordState) (t : ℚ)
    (h : s.lastReviewed + s.intervalSeconds * 1000 ≤ t) :
    calculateNewInterval (some s) t DEFAULT_CONFIG =
      ⟨clampInterval ((t - s.lastReviewed) / 1000 * 5) DEFAULT_CONFIG,
        s.consecutiveSuccesses + 1, false⟩ := by
  simp only [calculateNewInterval, if_neg (not_lt.mpr h)]
  rfl

/-- Witness for the amended claim C2 at the spec's concrete example: state
`{intervalSeconds := 3600, lastReviewed := 0}`, `completedAt = 7200000`
(2 h elapsed, overdue) yields newInterval exactly `7200 * 5 = 36000`. -/
theorem calculateNewInterval_good_review_formula_witness :
    (0 : ℚ) + 3600 * 1000 ≤ 7200000 ∧
    (calculateNewInterval (some ⟨3600, 0, 2⟩) 7200000 DEFAULT_CONFIG).newInterval = 36000 := by
  refine ⟨by norm_num, ?_⟩
  have h := calculateNewInterval_good_review_formula ⟨3600, 0, 2⟩ 7200000 (by norm_num)
  rw [h]
  simp only [clampInterval, DEFAULT_CONFIG]
  norm_num

/-- Claim C7.  For every word, pinyin and completion timestamp, the failure
transition with the default config resets the state to
`{intervalSeconds := 30, lastReviewed := t, consecutiveSuccesses := 0}` and
produces a change record with `oldIntervalSeconds = null`,
`newIntervalSeconds = 30`, `nextReview = t + 30 * 1000`,
`wasEarlyReview = false`, `wasFailure = true`; `updateWordStateFailure` takes
no prior state, so this holds regardless of any prior interval or streak,
and `calculateFailureInterval` itself returns `(30, 0)`. -/
theorem updateWordStateFailure_resets (word pinyin : String) (t : ℚ) :
    updateWordStateFailure word pinyin t DEFAULT_CONFIG =
      ⟨⟨30, t, 0⟩, ⟨word, pinyin, none, 30, t + 30 * 1000, false, true⟩⟩ ∧
    calculateFailureInterval DEFAULT_CONFIG = ⟨30, 0⟩ := by
  exact ⟨rfl, rfl⟩

/-- One segment of an exercise (`ExerciseSegment` in `domain/exercise.ts`);
an empty `pinyin` marks punctuation. -/
structure ExerciseSegment where
  chinese : String
  pinyin : String
  transliteration : Option String := none
deriving DecidableEq

/-- An exercise: ordered segments plus an English translation
(`Exercise` in `domain/exercise.ts`). -/
structure Exercise where
  segments : List ExerciseSegment
  english : String
deriving DecidableEq

/-- Per-word progress entry (`WordProgress` in `domain/progress.ts`). -/
structure WordProgress where
  word : String
  lastReviewed : ℚ
  nextReview : ℚ
  intervalSeconds : ℚ
  consecutiveSuccesses : ℕ
deriving DecidableEq

/-- One append-only history entry (`ExerciseHistory` in
`domain/progress.ts`). -/
structure ExerciseHistory where
  exerciseIndex : ℕ
  completedAt : ℚ
  success : Bool
  chinese : String
  pinyin : String
  english : String
  wordChanges : List WordIntervalChange
deriving DecidableEq

/-- One daily metrics snapshot (`DailyMetricsPoint` in
`domain/progress.ts`): date key plus known-word count and aggregate memory
strength, as computed by `progress-metrics.ts`. -/
structure DailyMetricsPoint where
  dateKey : String
  knownWords : ℕ
  memoryStrength : ℚ
deriving DecidableEq

/-- The aggregate progress snapshot (`StudentProgress` in
`domain/progress.ts`).  The `words`, `exerciseLastSeen` and
`dailyMetricsHistory` JS objects are association lists in insertion order. -/
structure StudentProgress where
  words : List (String × WordProgress)
  history : List ExerciseHistory
  exerciseLastSeen : List (ℕ × ℚ)
  dailyMetricsHistory : List (String × DailyMetricsPoint)
deriving DecidableEq

/-- Property lookup on a JS object modelled as an association list:
`m[k]`, returning `undefined` (`none`) when the key is absent. -/
def alookup {κ β : Type} [DecidableEq κ] (m : List (κ × β)) (k : κ) : Option β :=
  (m.find? (fun e => e.1 = k)).map (·.2)

/-- Object spread update `{ ...m, [k]: v }`: replaces the value at an
existing key in place (JS keeps the original insertion position), appends
otherwise. -/
def objUpdate {κ β : Type} [DecidableEq κ] (m : List (κ × β)) (k : κ) (v : β) :
    List (κ × β) :=
  if m.any (fun e => e.1 = k) then
    m.map (fun e => if e.1 = k then (k, v) else e)
  else
    m ++ [(k, v)]

/-- The five-component readability score of a candidate exercise
(the `score` field of `ScoredExercise` in `domain/exercise.ts`). -/
structure Score where
  wordsNotInOrderedList : ℕ
  unknownOrReviewWordCount : ℕ
  hasBeenSeen : ℕ
  largestOrderedWordIndex : ℤ
  chineseCharacterCount : ℕ
deriving DecidableEq

/-- Per-word classification computed by the scorer. -/
inductive WordStatus where
  | known
  | review
  | unknown
deriving DecidableEq

/-- The diagnostic breakdown attached to a scored exercise
(the `breakdown` field of `ScoredExercise`). -/
structure ScoreBreakdown where
  wordStatuses : List (String × WordStatus)
  orderedWordIndices : List (String × Option ℕ)
  wordsNotInOrderedList : ℕ
  unknownOrReviewWordCount : ℕ
  largestOrderedWordIndex : ℤ
  chineseCharacterCount : ℕ
  lastSeen : ℚ
deriving DecidableEq

/-- A scored candidate exercise (`ScoredExercise` in `domain/exercise.ts`). -/
structure ScoredExercise where
  exercise : Exercise
  index : ℕ
  score : Score
  breakdown : ScoreBreakdown
deriving DecidableEq

/-- Result of a selection (`{exercise, index, targetWord?}`). -/
structure SelectionResult where
  exercise : Exercise
  index : ℕ
  targetWord : Option String
deriving DecidableEq

/-- `getExerciseWords` from `exercises.ts`: the `chinese` text of every
segment whose `pinyin` is non-empty. -/
def getExerciseWords (exercise : Exercise) : List String :=
  (exercise.segments.filter (fun seg => seg.pinyin ≠ "")).map (·.chinese)

/-- `exerciseContainsWord` from `exercises.ts`. -/
def exerciseContainsWord (exercise : Exercise) (word : String) : Bool :=
  (getExerciseWords exercise).contains word

/-- `getNewWords` from `exercises.ts`: words of the exercise with no
progress entry. -/
def getNewWords (exercise : Exercise) (progress : StudentProgress) : List String :=
  (getExerciseWords exercise).filter (fun word => (alookup progress.words word).isNone)

/-- Lookup in the `Map` built by
`new Map(orderedWordList.map((word, index) => [word, index]))`: for a
duplicated word the last index wins, absent words give `undefined`. -/
def orderedWordIndexLookup (orderedWordList : List String) (w : String) : Option ℕ :=
  ((orderedWordList.enum.filter (fun e => e.2 = w)).getLast?).map (·.1)

/-- Han-script character test, modelling the `/\p{Script=Han}/u` regex used
by the scorer (CJK Unified Ideographs and extensions, compatibility
ideographs, and the Han characters of the CJK Symbols block). -/
def isHanChar (c : Char) : Bool :=
  let n := c.toNat
  (0x4E00 ≤ n && n ≤ 0x9FFF) || (0x3400 ≤ n && n ≤ 0x4DBF) ||
  (0xF900 ≤ n && n ≤ 0xFAD9) || (0x20000 ≤ n && n ≤ 0x2A6DF) ||
  (0x2A700 ≤ n && n ≤ 0x2EE5D) || (0x2F800 ≤ n && n ≤ 0x2FA1D) ||
  n == 0x3005 || n == 0x3007 || (0x3021 ≤ n && n ≤ 0x3029) ||
  (0x3038 ≤ n && n ≤ 0x303B)

/-- Accumulator of the per-word scoring loop in `getExerciseCandidates`. -/
structure ScoreAcc where
  wordStatuses : List (String × WordStatus)
  orderedWordIndices : List (String × Option ℕ)
  wordsNotInOrderedList : ℕ
  unknownOrReviewWordCount : ℕ
  largestOrderedWordIndex : ℤ
deriving DecidableEq

/-- One iteration of the `for (const w of exerciseWords)` loop in
`getExerciseCandidates`: classify `w` as known / review / unknown and update
the counters.  Known words (`wp && wp.nextReview > now`) only record their
status and ordered index (`continue`); unknown/review words additionally
increment `unknownOrReviewWordCount` and either increment
`wordsNotInOrderedList` (no ordered-list index) or raise
`largestOrderedWordIndex`. -/
def scoreWordStep (now : ℚ) (progress : StudentProgress)
    (orderedWordList : List String) (acc : ScoreAcc) (w : String) : ScoreAcc :=
  let wp := alookup progress.words w
  let isKnownWord := match wp with
    | some q => decide (q.nextReview > now)
    | none => false
  let wordListIndex := orderedWordIndexLookup orderedWordList w
  if isKnownWord then
    { acc with
      wordStatuses := objUpdate acc.wordStatuses w WordStatus.known
      orderedWordIndices := objUpdate acc.orderedWordIndices w wordListIndex }
  else
    let status := match wp with
      | none => WordStatus.unknown
      | some _ => WordStatus.review
    let acc' :=
      { acc with
        wordStatuses := objUpdate acc.wordStatuses w status
        orderedWordIndices := objUpdate acc.orderedWordIndices w wordListIndex
        unknownOrReviewWordCount := acc.unknownOrReviewWordCount + 1 }
    match wordListIndex with
    | none => { acc' with wordsNotInOrderedList := acc'.wordsNotInOrderedList + 1 }
    | some i =>
        { acc' with
          largestOrderedWordIndex := max acc'.largestOrderedWordIndex (i : ℤ) }

/-- Score one candidate exercise (the body of the `.map` in
`getExerciseCandidates`): run the word loop from the initial accumulator
(`largestOrderedWordIndex` starts at `-1`), count the Han characters of the
concatenated sentence, and read `lastSeen` from `exerciseLastSeen`
(`|| 0` makes an absent entry 0). -/
def scoreExercise (now : ℚ) (progress : StudentProgress)
    (orderedWordList : List String) (exercise : Exercise) (index : ℕ) :
    ScoredExercise :=
  let acc := (getExerciseWords exercise).foldl
    (scoreWordStep now progress orderedWordList) ⟨[], [], 0, 0, -1⟩
  let sentence := (exercise.segments.map (·.chinese)).foldl (· ++ ·) ""
  let chineseCharacterCount := (sentence.toList.filter isHanChar).length
  let lastSeen := (alookup progress.exerciseLastSeen index).getD 0
  let hasBeenSeen : ℕ := if lastSeen > 0 then 1 else 0
  { exercise := exercise
    index := index
    score :=
      { wordsNotInOrderedList := acc.wordsNotInOrderedList
        unknownOrReviewWordCount := acc.unknownOrReviewWordCount
        hasBeenSeen := hasBeenSeen
        largestOrderedWordIndex := acc.largestOrderedWordIndex
        chineseCharacterCount := chineseCharacterCount }
    breakdown :=
      { wordStatuses := acc.wordStatuses
        orderedWordIndices := acc.orderedWordIndices
        wordsNotInOrderedList := acc.wordsNotInOrderedList
        unknownOrReviewWordCount := acc.unknownOrReviewWordCount
        largestOrderedWordIndex := acc.largestOrderedWordIndex
        chineseCharacterCount := chineseCharacterCount
        lastSeen := lastSeen } }

/-- The sort comparator of `getExerciseCandidates`: lexicographic on the
five score components (as signed differences), final tie-break by
`lastSeen`. -/
def compareScored (a b : ScoredExercise) : ℚ :=
  if a.score.wordsNotInOrderedList ≠ b.score.wordsNotInOrderedList then
    (a.score.wordsNotInOrderedList : ℚ) - (b.score.wordsNotInOrderedList : ℚ)
  else if a.score.unknownOrReviewWordCount ≠ b.score.unknownOrReviewWordCount then
    (a.score.unknownOrReviewWordCount : ℚ) - (b.score.unknownOrReviewWordCount : ℚ)
  else if a.score.hasBeenSeen ≠ b.score.hasBeenSeen then
    (a.score.hasBeenSeen : ℚ) - (b.score.hasBeenSeen : ℚ)
  else if a.score.largestOrderedWordIndex ≠ b.score.largestOrderedWordIndex then
    (a.score.largestOrderedWordIndex : ℚ) - (b.score.largestOrderedWordIndex : ℚ)
  else if a.score.chineseCharacterCount ≠ b.score.chineseCharacterCount then
    (a.score.chineseCharacterCount : ℚ) - (b.score.chineseCharacterCount : ℚ)
  else
    a.breakdown.lastSeen - b.breakdown.lastSeen

/-- `getExerciseCandidates` from `exercises.ts` with its single `Date.now()`
read made the explicit parameter `now`: enumerate the exercises, keep those
containing `word`, score each, and stable-sort by the comparator. -/
def getExerciseCandidatesAt (now : ℚ) (word : String) (exercises : List Exercise)
    (progress : StudentProgress) (orderedWordList : List String) :
    List ScoredExercise :=
  let candidateExercises :=
    (exercises.enum.map (fun p => (p.2, p.1))).filter
      (fun q => exerciseContainsWord q.1 word)
  let scored := candidateExercises.map
    (fun q => scoreExercise now progress orderedWordList q.1 q.2)
  List.insertionSort (fun a b => compareScored a b ≤ 0) scored

/-- `getExerciseCandidates` as the source executes it: it reads `Date.now()`
itself (one clock read at position `k`), then proceeds purely. -/
def getExerciseCandidates (clock : ℕ → ℚ) (k : ℕ) (word : String)
    (exercises : List Exercise) (progress : StudentProgress)
    (orderedWordList : List String) : List ScoredExercise × ℕ :=
  (getExerciseCandidatesAt (clock k) word exercises progress orderedWordList, k + 1)

/-- The review-sentence unlock test inside `selectNextExercise`: every word
of the exercise other than the target has a progress entry with
`nextReview > now`. -/
def isUnlockedFor (now : ℚ) (progress : StudentProgress) (targetWord : String)
    (exercise : Exercise) : Bool :=
  ((getExerciseWords exercise).filter (fun w => w ≠ targetWord)).all
    (fun w =>
      match alookup progress.words w with
      | some wp => decide (wp.nextReview > now)
      | none => false)

/-- The overdue-word queue of `selectNextExercise`:
`Object.values(progress.words)` filtered to `nextReview ≤ now`, restricted
to the ordered word list when that list is non-empty
(`allowedWords.size === 0` is `orderedWordList = []`), then stable-sorted
ascending by `nextReview`. -/
def wordsNeedingReview (now : ℚ) (progress : StudentProgress)
    (orderedWordList : List String) : List WordProgress :=
  List.insertionSort (fun a b => a.nextReview ≤ b.nextReview)
    ((progress.words.map (·.2)).filter
      (fun wp =>
        if wp.nextReview > now then false
        else if orderedWordList.isEmpty then true
        else orderedWordList.contains wp.word))

/-- The final `for` loop of `selectNewExercise` (scan the corpus in order
for the first exercise with new words and return the top candidate for its
first new word), followed by the absolute fallback
(`exercises[0]` or `null` on an empty corpus).  Clocked version: each
`getExerciseCandidates` call consumes one clock read. -/
def fallbackLoop (clock : ℕ → ℚ) (exercises : List Exercise)
    (progress : StudentProgress) (orderedWordList : List String) :
    List Exercise → ℕ → Option SelectionResult × ℕ
  | [], k =>
      match exercises with
      | [] => (none, k)
      | e :: _ => (some ⟨e, 0, none⟩, k)
  | e :: rest, k =>
      match getNewWords e progress with
      | [] => fallbackLoop clock exercises progress orderedWordList rest k
      | w :: _ =>
          let pair := getExerciseCandidates clock k w exercises progress orderedWordList
          match pair.1 with
          | [] => fallbackLoop clock exercises progress orderedWordList rest pair.2
          | c :: _ => (some ⟨c.exercise, c.index, some w⟩, pair.2)

/-- The ordered-word-list loop of `selectNewExercise`: for the first word of
the list with no progress entry that has candidates, return the top
candidate.  (The source guards the loop with `orderedWordList.length > 0`,
which is the same as iterating over the empty list.)  Falls through to
`fallbackLoop` over the corpus. -/
def newWordLoop (clock : ℕ → ℚ) (exercises : List Exercise)
    (progress : StudentProgress) (orderedWordList : List String) :
    List String → ℕ → Option SelectionResult × ℕ
  | [], k => fallbackLoop clock exercises progress orderedWordList exercises k
  | w :: rest, k =>
      if (alookup progress.words w).isNone then
        let pair := getExerciseCandidates clock k w exercises progress orderedWordList
        match pair.1 with
        | [] => newWordLoop clock exercises progress orderedWordList rest pair.2
        | c :: _ => (some ⟨c.exercise, c.index, some w⟩, pair.2)
      else newWordLoop clock exercises progress orderedWordList rest k

/-- `selectNewExercise` from `exercises.ts` (clocked). -/
def selectNewExercise (clock : ℕ → ℚ) (k : ℕ) (exercises : List Exercise)
    (progress : StudentProgress) (orderedWordList : List String) :
    Option SelectionResult × ℕ :=
  newWordLoop clock exercises progress orderedWordList orderedWordList k

/-- The `for (const reviewWord of wordsNeedingReview)` loop of
`selectNextExercise`: score the candidates of the overdue word (one clock
read), filter to unlocked ones (using the `now` read at the top of
`selectNextExercise`), return the first unlocked candidate, otherwise move
to the next overdue word; after the queue, fall through to
`selectNewExercise`. -/
def reviewLoop (now : ℚ) (clock : ℕ → ℚ) (exercises : List Exercise)
    (progress : StudentProgress) (orderedWordList : List String) :
    List WordProgress → ℕ → Option SelectionResult × ℕ
  | [], k => selectNewExercise clock k exercises progress orderedWordList
  | rw :: rest, k =>
      let pair := getExerciseCandidates clock k rw.word exercises progress orderedWordList
      let scoredExercises :=
        pair.1.filter (fun se => isUnlockedFor now progress rw.word se.exercise)
      match scoredExercises with
      | [] => reviewLoop now clock exercises progress orderedWordList rest pair.2
      | se :: _ => (some ⟨se.exercise, se.index, some rw.word⟩, pair.2)

/-- `selectNextExercise` from `exercises.ts`: read `now` (clock read 0),
build the overdue queue, run the review loop (clock reads from 1 on), fall
back to `selectNewExercise`. -/
def selectNextExercise (clock : ℕ → ℚ) (exercises : List Exercise)
    (progress : StudentProgress) (orderedWordList : List String) :
    Option SelectionResult × ℕ :=
  let now := clock 0
  reviewLoop now clock exercises progress orderedWordList
    (wordsNeedingReview now progress orderedWordList) 1

/-- `fallbackLoop` with every wall-clock read replaced by the fixed `now`. -/
def fallbackLoopAt (now : ℚ) (exercises : List Exercise)
    (progress : StudentProgress) (orderedWordList : List String) :
    List Exercise → Option SelectionResult
  | [] =>
      match exercises with
      | [] => none
      | e :: _ => some ⟨e, 0, none⟩
  | e :: rest =>
      match getNewWords e progress with
      | [] => fallbackLoopAt now exercises progress orderedWordList rest
      | w :: _ =>
          match getExerciseCandidatesAt now w exercises progress orderedWordList with
          | [] => fallbackLoopAt now exercises progress orderedWordList rest
          | c :: _ => some ⟨c.exercise, c.index, some w⟩

/-- `newWordLoop` with every wall-clock read replaced by the fixed `now`. -/
def newWordLoopAt (now : ℚ) (exercises : List Exercise)
    (progress : StudentProgress) (orderedWordList : List String) :
    List String → Option SelectionResult
  | [] => fallbackLoopAt now exercises progress orderedWordList exercises
  | w :: rest =>
      if (alookup progress.words w).isNone then
        match getExerciseCandidatesAt now w exercises progress orderedWordList with
        | [] => newWordLoopAt now exercises progress orderedWordList rest
        | c :: _ => some ⟨c.exercise, c.index, some w⟩
      else newWordLoopAt now exercises progress orderedWordList rest

/-- `reviewLoop` with every wall-clock read replaced by the fixed `now`. -/
def reviewLoopAt (now : ℚ) (exercises : List Exercise)
    (progress : StudentProgress) (orderedWordList : List String) :
    List WordProgress → Option SelectionResult
  | [] => newWordLoopAt now exercises progress orderedWordList orderedWordList
  | rw :: rest =>
      match (getExerciseCandidatesAt now rw.word exercises progress
          orderedWordList).filter
          (fun se => isUnlockedFor now progress rw.word se.exercise) with
      | [] => reviewLoopAt now exercises progress orderedWordList rest
      | se :: _ => some ⟨se.exercise, se.index, some rw.word⟩

/-- `selectNextExercise` with a single fixed `now` for the whole pass. -/
def selectNextExerciseAt (now : ℚ) (exercises : List Exercise)
    (progress : StudentProgress) (orderedWordList : List String) :
    Option SelectionResult :=
  reviewLoopAt now exercises progress orderedWordList
    (wordsNeedingReview now progress orderedWordList)

/-- `updateWordSuccess` from `exercises.ts`: run the interval engine on the
existing state of `word` (with the default config, as the source's optional
parameter does), overwrite the word's progress entry, and recompute the
change record's `nextReview` from the new state. -/
def updateWordSuccess (word pinyin : String) (progress : StudentProgress)
    (completedAt : ℚ) : StudentProgress × WordIntervalChange :=
  let existing := alookup progress.words word
  let existingState : Option WordState :=
    existing.map (fun e => ⟨e.intervalSeconds, e.lastReviewed, e.consecutiveSuccesses⟩)
  let u := updateWordStateSuccess word pinyin existingState completedAt DEFAULT_CONFIG
  let nextReview := completedAt + u.state.intervalSeconds * 1000
  let updatedChange := { u.change with nextReview := nextReview }
  ({ progress with
      words := objUpdate progress.words word
        ⟨word, u.state.lastReviewed, nextReview, u.state.intervalSeconds,
          u.state.consecutiveSuccesses⟩ },
    updatedChange)

/-- `updateWordFailure` from `exercises.ts`. -/
def updateWordFailure (word pinyin : String) (progress : StudentProgress)
    (completedAt : ℚ) : StudentProgress × WordIntervalChange :=
  let u := updateWordStateFailure word pinyin completedAt DEFAULT_CONFIG
  let nextReview := completedAt + u.state.intervalSeconds * 1000
  let updatedChange := { u.change with nextReview := nextReview }
  ({ progress with
      words := objUpdate progress.words word
        ⟨word, u.state.lastReviewed, nextReview, u.state.intervalSeconds,
          u.state.consecutiveSuccesses⟩ },
    updatedChange)

/-- Lookup on the empty object. -/
theorem alookup_nil {κ β : Type} [DecidableEq κ] (k : κ) :
    alookup ([] : List (κ × β)) k = none := rfl

/-- Lookup hits a head entry with a matching key. -/
theorem alookup_cons_eq {κ β : Type} [DecidableEq κ]
    (e : κ × β) (t : List (κ × β)) (k : κ) (h : e.1 = k) :
    alookup (e :: t) k = some e.2 := by
  simp [alookup, List.find?, h]

/-- Lookup skips a head entry with a different key. -/
theorem alookup_cons_ne {κ β : Type} [DecidableEq κ]
    (e : κ × β) (t : List (κ × β)) (k : κ) (h : e.1 ≠ k) :
    alookup (e :: t) k = alookup t k := by
  simp only [alookup, List.find?, decide_eq_false h]

/-- Lookup in the one-entry object. -/
theorem alookup_singleton {κ β : Type} [DecidableEq κ] (k k' : κ) (v : β) :
    alookup [(k, v)] k' = if k' = k then some v else none := by
  by_cases h : k' = k
  · rw [if_pos h, alookup_cons_eq _ _ _ h.symm]
  · rw [if_neg h, alookup_cons_ne _ _ _ (fun hh => h hh.symm), alookup_nil]

/-- Lookup of the updated key after replacing it in place. -/
theorem alookup_replace_self {κ β : Type} [DecidableEq κ]
    (m : List (κ × β)) (k : κ) (v : β) :
    alookup (m.map (fun e => if e.1 = k then (k, v) else e)) k =
      if m.any (fun e => e.1 = k) then some v else none := by
  induction m with
  | nil => simp [alookup]
  | cons e t ih =>
      by_cases he : e.1 = k
      · rw [List.map_cons, if_pos he,
          alookup_cons_eq ((k, v)) _ k rfl]
        simp [List.any_cons, he]
      · rw [List.map_cons, if_neg he, alookup_cons_ne e _ k he, ih]
        have : ((e :: t).any (fun e => e.1 = k)) = (t.any (fun e => e.1 = k)) := by
          simp [List.any_cons, decide_eq_false he]
        rw [this]

/-- Lookup of a different key is unchanged by the in-place replacement. -/
theorem alookup_replace_other {κ β : Type} [DecidableEq κ]
    (m : List (κ × β)) (k k' : κ) (v : β) (h : k' ≠ k) :
    alookup (m.map (fun e => if e.1 = k then (k, v) else e)) k' = alookup m k' := by
  induction m with
  | nil => simp
  | cons e t ih =>
      by_cases he : e.1 = k
      · rw [List.map_cons, if_pos he,
          alookup_cons_ne ((k, v)) _ k' (fun hh => h hh.symm),
          alookup_cons_ne e _ k' (fun hh => h (he ▸ hh : k = k').symm), ih]
      · by_cases he' : e.1 = k'
        · rw [List.map_cons, if_neg he, alookup_cons_eq e _ k' he',
            alookup_cons_eq e _ k' he']
        · rw [List.map_cons, if_neg he, alookup_cons_ne e _ k' he',
            alookup_cons_ne e _ k' he', ih]

/-- Lookup after appending a fresh entry whose key is absent. -/
theorem alookup_append_single {κ β : Type} [DecidableEq κ]
    (m : List (κ × β)) (k k' : κ) (v : β)
    (hany : ¬ m.any (fun e => e.1 = k)) :
    alookup (m ++ [(k, v)]) k' = if k' = k then some v else alookup m k' := by
  induction m with
  | nil => simpa using alookup_singleton k k' v
  | cons e t ih =>
      have hany_t : ¬ t.any (fun e => e.1 = k) := by
        intro hh
        exact hany (by simp [List.any_cons, hh])
      have he : e.1 ≠ k := by
        intro hh
        exact hany (by simp [List.any_cons, hh])
      by_cases he' : e.1 = k'
      · rw [List.cons_append, alookup_cons_eq e _ k' he',
          alookup_cons_eq e _ k' he',
          if_neg (fun hk => he (he'.trans hk))]
      · rw [List.cons_append, alookup_cons_ne e _ k' he',
          alookup_cons_ne e _ k' he', ih hany_t]

/-- Lookup after an object-spread update: the updated key reads the new
value, every other key is untouched. -/
theorem alookup_objUpdate {κ β : Type} [DecidableEq κ]
    (m : List (κ × β)) (k k' : κ) (v : β) :
    alookup (objUpdate m k v) k' = if k' = k then some v else alookup m k' := by
  unfold objUpdate
  by_cases hany : m.any (fun e => e.1 = k)
  · rw [if_pos hany]
    by_cases hk : k' = k
    · subst hk
      rw [if_pos rfl, alookup_replace_self, if_pos hany]
    · rw [if_neg hk, alookup_replace_other m k k' v hk]
  · rw [if_neg hany, alookup_append_single m k k' v hany]

/-- Every entry of an object-spread update is the new entry or an entry of
the original object. -/
theorem mem_objUpdate {κ β : Type} [DecidableEq κ]
    {m : List (κ × β)} {k : κ} {v : β} {e : κ × β}
    (h : e ∈ objUpdate m k v) : e = (k, v) ∨ e ∈ m := by
  unfold objUpdate at h
  by_cases hany : m.any (fun x => x.1 = k)
  · rw [if_pos hany] at h
    rcases List.mem_map.mp h with ⟨a, ha, rfl⟩
    by_cases hk : a.1 = k
    · left; simp [hk]
    · right; simpa [hk] using ha
  · rw [if_neg hany] at h
    rcases List.mem_append.mp h with h | h
    · exact Or.inr h
    · simp at h
      exact Or.inl (by simp [h])

/-- The `nextReview` bookkeeping invariant of a progress entry. -/
def wordInvariant (wp : WordProgress) : Prop :=
  wp.nextReview = wp.lastReviewed + wp.intervalSeconds * 1000

/-- The success update rewrites exactly the target word's entry, and the new
entry satisfies the bookkeeping invariant with `lastReviewed = completedAt`. -/
theorem updateWordSuccess_words_spec (word pinyin : String)
    (p : StudentProgress) (completedAt : ℚ) :
    ∃ wp : WordProgress,
      (updateWordSuccess word pinyin p completedAt).1.words =
        objUpdate p.words word wp ∧
      wordInvariant wp ∧ wp.lastReviewed = completedAt :=
  ⟨_, rfl, rfl, rfl⟩

/-- The failure update rewrites exactly the target word's entry, and the new
entry satisfies the bookkeeping invariant with `lastReviewed = completedAt`. -/
theorem updateWordFailure_words_spec (word pinyin : String)
    (p : StudentProgress) (completedAt : ℚ) :
    ∃ wp : WordProgress,
      (updateWordFailure word pinyin p completedAt).1.words =
        objUpdate p.words word wp ∧
      wordInvariant wp ∧ wp.lastReviewed = completedAt :=
  ⟨_, rfl, rfl, rfl⟩

/-- Claim C6.  Both `updateWordSuccess` and `updateWordFailure` store, for
the updated word, an entry with `nextReview = lastReviewed +
intervalSeconds * 1000` and `lastReviewed = completedAt`; and both preserve
the invariant across the whole `words` map, so every snapshot reachable by
these transitions from an invariant-satisfying snapshot satisfies it for
every word entry. -/
theorem updateWord_nextReview_invariant (word pinyin : String)
    (p : StudentProgress) (completedAt : ℚ) :
    (∃ wp, alookup (updateWordSuccess word pinyin p completedAt).1.words word =
        some wp ∧ wordInvariant wp ∧ wp.lastReviewed = completedAt) ∧
    (∃ wp, alookup (updateWordFailure word pinyin p completedAt).1.words word =
        some wp ∧ wordInvariant wp ∧ wp.lastReviewed = completedAt) ∧
    ((∀ e ∈ p.words, wordInvariant e.2) →
      ∀ e ∈ (updateWordSuccess word pinyin p completedAt).1.words,
        wordInvariant e.2) ∧
    ((∀ e ∈ p.words, wordInvariant e.2) →
      ∀ e ∈ (updateWordFailure word pinyin p completedAt).1.words,
        wordInvariant e.2) := by
  obtain ⟨ws, hws, hinvs, hlrs⟩ := updateWordSuccess_words_spec word pinyin p completedAt
  obtain ⟨wf, hwf, hinvf, hlrf⟩ := updateWordFailure_words_spec word pinyin p completedAt
  refine ⟨⟨ws, ?_, hinvs, hlrs⟩, ⟨wf, ?_, hinvf, hlrf⟩, ?_, ?_⟩
  · rw [hws, alookup_objUpdate, if_pos rfl]
  · rw [hwf, alookup_objUpdate, if_pos rfl]
  · intro h e he
    rw [hws] at he
    rcases mem_objUpdate he with rfl | hmem
    · exact hinvs
    · exact h e hmem
  · intro h e he
    rw [hwf] at he
    rcases mem_objUpdate he with rfl | hmem
    · exact hinvf
    · exact h e hmem

/-- Witness for claim C6 on the empty snapshot: the invariant hypothesis is
vacuous and the conclusion holds for the updated snapshot. -/
theorem updateWord_nextReview_invariant_witness :
    (∀ e ∈ (⟨[], [], [], []⟩ : StudentProgress).words, wordInvariant e.2) ∧
    (∀ e ∈ (updateWordSuccess "a" "ay" ⟨[], [], [], []⟩ 5).1.words,
      wordInvariant e.2) :=
  ⟨by simp, (updateWord_nextReview_invariant "a" "ay" ⟨[], [], [], []⟩ 5).2.2.1
    (by simp)⟩

/-- Claim C10.  A word update (success or failure) leaves `history`,
`exerciseLastSeen` and `dailyMetricsHistory` identical, leaves the `words`
map identical at every key other than the updated word, and adds or
replaces exactly the updated word's entry. -/
theorem updateWord_frame (word pinyin : String) (p : StudentProgress)
    (completedAt : ℚ) :
    (updateWordSuccess word pinyin p completedAt).1.history = p.history ∧
    (updateWordSuccess word pinyin p completedAt).1.exerciseLastSeen =
      p.exerciseLastSeen ∧
    (updateWordSuccess word pinyin p completedAt).1.dailyMetricsHistory =
      p.dailyMetricsHistory ∧
    (∀ k, k ≠ word →
      alookup (updateWordSuccess word pinyin p completedAt).1.words k =
        alookup p.words k) ∧
    (∃ wp, alookup (updateWordSuccess word pinyin p completedAt).1.words word =
      some wp) ∧
    (updateWordFailure word pinyin p completedAt).1.history = p.history ∧
    (updateWordFailure word pinyin p completedAt).1.exerciseLastSeen =
      p.exerciseLastSeen ∧
    (updateWordFailure word pinyin p completedAt).1.dailyMetricsHistory =
      p.dailyMetricsHistory ∧
    (∀ k, k ≠ word →
      alookup (updateWordFailure word pinyin p completedAt).1.words k =
        alookup p.words k) ∧
    (∃ wp, alookup (updateWordFailure word pinyin p completedAt).1.words word =
      some wp) := by
  obtain ⟨ws, hws, -, -⟩ := updateWordSuccess_words_spec word pinyin p completedAt
  obtain ⟨wf, hwf, -, -⟩ := updateWordFailure_words_spec word pinyin p completedAt
  refine ⟨rfl, rfl, rfl, ?_, ⟨ws, ?_⟩, rfl, rfl, rfl, ?_, ⟨wf, ?_⟩⟩
  · intro k hk
    rw [hws, alookup_objUpdate, if_neg hk]
  · rw [hws, alookup_objUpdate, if_pos rfl]
  · intro k hk
    rw [hwf, alookup_objUpdate, if_neg hk]
  · rw [hwf, alookup_objUpdate, if_pos rfl]

/-- Witness for claim C10: updating word "a" leaves the lookup of the
distinct key "b" unchanged. -/
theorem updateWord_frame_witness :
    ("b" : String) ≠ "a" ∧
    alookup (updateWordSuccess "a" "ay" ⟨[], [], [], []⟩ 5).1.words "b" =
      alookup (⟨[], [], [], []⟩ : StudentProgress).words "b" :=
  ⟨by decide, (updateWord_frame "a" "ay" ⟨[], [], [], []⟩ 5).2.2.2.1 "b" (by decide)⟩

/-- The documented candidate order: lexicographic ascending on the 5-tuple
(wordsNotInOrderedList, unknownOrReviewWordCount, hasBeenSeen,
largestOrderedWordIndex, chineseCharacterCount), then ascending lastSeen. -/
def scoredLexLe (a b : ScoredExercise) : Prop :=
  a.score.wordsNotInOrderedList < b.score.wordsNotInOrderedList ∨
  (a.score.wordsNotInOrderedList = b.score.wordsNotInOrderedList ∧
    (a.score.unknownOrReviewWordCount < b.score.unknownOrReviewWordCount ∨
    (a.score.unknownOrReviewWordCount = b.score.unknownOrReviewWordCount ∧
      (a.score.hasBeenSeen < b.score.hasBeenSeen ∨
      (a.score.hasBeenSeen = b.score.hasBeenSeen ∧
        (a.score.largestOrderedWordIndex < b.score.largestOrderedWordIndex ∨
        (a.score.largestOrderedWordIndex = b.score.largestOrderedWordIndex ∧
          (a.score.chineseCharacterCount < b.score.chineseCharacterCount ∨
          (a.score.chineseCharacterCount = b.score.chineseCharacterCount ∧
            a.breakdown.lastSeen ≤ b.breakdown.lastSeen)))))))))

/-- One comparator level, `ℕ`-keyed: the signed difference is nonpositive
exactly when the key is smaller, or equal with the rest nonpositive. -/
theorem natStep_iff {x y : ℕ} {q : ℚ} {R : Prop} (hR : q ≤ 0 ↔ R) :
    (if x ≠ y then (x : ℚ) - (y : ℚ) else q) ≤ 0 ↔ (x < y ∨ (x = y ∧ R)) := by
  rcases eq_or_ne x y with h | h
  · simp [h, hR]
  · rw [if_pos h]
    constructor
    · intro hle
      exact Or.inl (lt_of_le_of_ne (by exact_mod_cast sub_nonpos.mp hle) h)
    · rintro (hlt | ⟨heq, -⟩)
      · exact sub_nonpos.mpr (by exact_mod_cast hlt.le)
      · exact absurd heq h

/-- One comparator level, `ℤ`-keyed. -/
theorem intStep_iff {x y : ℤ} {q : ℚ} {R : Prop} (hR : q ≤ 0 ↔ R) :
    (if x ≠ y then (x : ℚ) - (y : ℚ) else q) ≤ 0 ↔ (x < y ∨ (x = y ∧ R)) := by
  rcases eq_or_ne x y with h | h
  · simp [h, hR]
  · rw [if_pos h]
    constructor
    · intro hle
      exact Or.inl (lt_of_le_of_ne (by exact_mod_cast sub_nonpos.mp hle) h)
    · rintro (hlt | ⟨heq, -⟩)
      · exact sub_nonpos.mpr (by exact_mod_cast hlt.le)
      · exact absurd heq h

/-- The comparator realises the documented lexicographic order. -/
theorem compareScored_le_iff (a b : ScoredExercise) :
    compareScored a b ≤ 0 ↔ scoredLexLe a b := by
  unfold compareScored scoredLexLe
  exact natStep_iff (natStep_iff (natStep_iff (intStep_iff
    (natStep_iff sub_nonpos))))

/-- One lexicographic level is transitive given transitivity below it. -/
theorem lexStep_trans {α : Type} [Preorder α] {x y z : α} {R S T : Prop}
    (hRS : R → S → T) (h1 : x < y ∨ (x = y ∧ R)) (h2 : y < z ∨ (y = z ∧ S)) :
    x < z ∨ (x = z ∧ T) := by
  rcases h1 with h1 | ⟨e1, r⟩
  · rcases h2 with h2 | ⟨e2, -⟩
    · exact Or.inl (h1.trans h2)
    · exact Or.inl (e2 ▸ h1)
  · rcases h2 with h2 | ⟨e2, s⟩
    · exact Or.inl (e1 ▸ h2)
    · exact Or.inr ⟨e1.trans e2, hRS r s⟩

/-- One lexicographic level is total given totality below it. -/
theorem lexStep_total {α : Type} [LinearOrder α] {x y : α} {R S : Prop}
    (h : R ∨ S) :
    (x < y ∨ (x = y ∧ R)) ∨ (y < x ∨ (y = x ∧ S)) := by
  rcases lt_trichotomy x y with h1 | h1 | h1
  · exact Or.inl (Or.inl h1)
  · rcases h with r | s
    · exact Or.inl (Or.inr ⟨h1, r⟩)
    · exact Or.inr (Or.inr ⟨h1.symm, s⟩)
  · exact Or.inr (Or.inl h1)

/-- The documented candidate order is transitive. -/
theorem scoredLexLe_trans {a b c : ScoredExercise}
    (h1 : scoredLexLe a b) (h2 : scoredLexLe b c) : scoredLexLe a c := by
  unfold scoredLexLe at h1 h2 ⊢
  exact lexStep_trans (lexStep_trans (lexStep_trans (lexStep_trans
    (lexStep_trans (fun hab hbc => le_trans hab hbc))))) h1 h2

/-- The documented candidate order is total. -/
theorem scoredLexLe_total (a b : ScoredExercise) :
    scoredLexLe a b ∨ scoredLexLe b a := by
  unfold scoredLexLe
  exact lexStep_total (lexStep_total (lexStep_total (lexStep_total
    (lexStep_total (le_total a.breakdown.lastSeen b.breakdown.lastSeen)))))

/-- The comparator relation is transitive. -/
theorem compareScored_le_trans {a b c : ScoredExercise}
    (h1 : compareScored a b ≤ 0) (h2 : compareScored b c ≤ 0) :
    compareScored a c ≤ 0 :=
  (compareScored_le_iff a c).mpr
    (scoredLexLe_trans ((compareScored_le_iff a b).mp h1)
      ((compareScored_le_iff b c).mp h2))

/-- The comparator relation is total. -/
theorem compareScored_le_total (a b : ScoredExercise) :
    compareScored a b ≤ 0 ∨ compareScored b a ≤ 0 := by
  rcases scoredLexLe_total a b with h | h
  · exact Or.inl ((compareScored_le_iff a b).mpr h)
  · exact Or.inr ((compareScored_le_iff b a).mpr h)

/-- The candidate list is, up to ordering, exactly the (exercise, index)
enumeration of the exercises containing the word. -/
theorem getExerciseCandidatesAt_perm (now : ℚ) (word : String)
    (exercises : List Exercise) (progress : StudentProgress)
    (orderedWordList : List String) :
    ((getExerciseCandidatesAt now word exercises progress orderedWordList).map
        (fun se => (se.exercise, se.index))).Perm
      ((exercises.enum.filter (fun p => exerciseContainsWord p.2 word)).map
        (fun p => (p.2, p.1))) := by
  unfold getExerciseCandidatesAt
  refine (List.Perm.map _ (List.perm_insertionSort _ _)).trans ?_
  rw [List.map_map]
  have hcomp :
      ((fun se : ScoredExercise => (se.exercise, se.index)) ∘
        (fun q : Exercise × ℕ =>
          scoreExercise now progress orderedWordList q.1 q.2)) =
      (fun q : Exercise × ℕ => (q.1, q.2)) := rfl
  rw [hcomp, List.filter_map (fun p : ℕ × Exercise => (p.2, p.1)) exercises.enum,
    List.map_map]
  exact List.Perm.refl _

/-- The candidate list is sorted by the comparator. -/
theorem getExerciseCandidatesAt_sorted (now : ℚ) (word : String)
    (exercises : List Exercise) (progress : StudentProgress)
    (orderedWordList : List String) :
    (getExerciseCandidatesAt now word exercises progress
      orderedWordList).Pairwise (fun a b => compareScored a b ≤ 0) := by
  unfold getExerciseCandidatesAt
  letI : IsTotal ScoredExercise (fun a b => compareScored a b ≤ 0) :=
    ⟨compareScored_le_total⟩
  letI : IsTrans ScoredExercise (fun a b => compareScored a b ≤ 0) :=
    ⟨fun a b c => compareScored_le_trans⟩
  exact List.sorted_insertionSort _ _

/-- Universally quantified facts over an enumeration project onto the
underlying list. -/
theorem forall_enum_iff {α : Type} (l : List α) (P : α → Prop) :
    (∀ p ∈ l.enum, P p.2) ↔ (∀ e ∈ l, P e) := by
  constructor
  · intro h e he
    have he' : e ∈ l.enum.map Prod.snd := by rw [List.enum_map_snd]; exact he
    rcases List.mem_map.mp he' with ⟨p, hp, rfl⟩
    exact h p hp
  · intro h p hp
    apply h
    have : p.2 ∈ l.enum.map Prod.snd := List.mem_map_of_mem _ hp
    rwa [List.enum_map_snd] at this

/-- The candidate list is empty exactly when no exercise contains the
word. -/
theorem getExerciseCandidatesAt_eq_nil_iff (now : ℚ) (word : String)
    (exercises : List Exercise) (progress : StudentProgress)
    (orderedWordList : List String) :
    getExerciseCandidatesAt now word exercises progress orderedWordList = [] ↔
      ∀ e ∈ exercises, exerciseContainsWord e word = false := by
  unfold getExerciseCandidatesAt
  rw [← List.length_eq_zero,
    (List.perm_insertionSort _ _).length_eq, List.length_eq_zero,
    List.map_eq_nil_iff,
    List.filter_map (fun p : ℕ × Exercise => (p.2, p.1)) exercises.enum,
    List.map_eq_nil_iff, List.filter_eq_nil_iff]
  have hiff := forall_enum_iff exercises
    (fun e => ¬ exerciseContainsWord e word = true)
  constructor
  · intro h e he
    have h2 : ∀ p ∈ exercises.enum, ¬ exerciseContainsWord p.2 word = true := by
      intro p hp
      simpa [Function.comp] using h p hp
    simpa using hiff.mp h2 e he
  · intro h p hp
    have h2 : ∀ p ∈ exercises.enum, ¬ exerciseContainsWord p.2 word = true :=
      hiff.mpr (fun e he => by simp [h e he])
    simpa [Function.comp] using h2 p hp

/-- Claim C5.  For every word, corpus, progress snapshot and ordered word
list, `getExerciseCandidates` (with its wall-clock read made explicit)
returns exactly the exercises containing the word, with their original
indices (empty exactly when no exercise contains it), sorted ascending by
the comparator; and the comparator realises the documented lexicographic
order on the 5-tuple with the `lastSeen` tie-break, which is a transitive
and total order. -/
theorem getExerciseCandidates_exact_sorted_total (now : ℚ) (word : String)
    (exercises : List Exercise) (progress : StudentProgress)
    (orderedWordList : List String) :
    ((getExerciseCandidatesAt now word exercises progress orderedWordList).map
        (fun se => (se.exercise, se.index))).Perm
      ((exercises.enum.filter (fun p => exerciseContainsWord p.2 word)).map
        (fun p => (p.2, p.1))) ∧
    (getExerciseCandidatesAt now word exercises progress orderedWordList = [] ↔
      ∀ e ∈ exercises, exerciseContainsWord e word = false) ∧
    (getExerciseCandidatesAt now word exercises progress
      orderedWordList).Pairwise (fun a b => compareScored a b ≤ 0) ∧
    (∀ a b : ScoredExercise, compareScored a b ≤ 0 ↔ scoredLexLe a b) ∧
    (∀ a b c : ScoredExercise,
      compareScored a b ≤ 0 → compareScored b c ≤ 0 → compareScored a c ≤ 0) ∧
    (∀ a b : ScoredExercise, compareScored a b ≤ 0 ∨ compareScored b a ≤ 0) :=
  ⟨getExerciseCandidatesAt_perm now word exercises progress orderedWordList,
    getExerciseCandidatesAt_eq_nil_iff now word exercises progress orderedWordList,
    getExerciseCandidatesAt_sorted now word exercises progress orderedWordList,
    compareScored_le_iff,
    fun _ _ _ => compareScored_le_trans,
    compareScored_le_total⟩

/-- Concrete scored candidate used by the C5 witness. -/
def witnessScoredA : ScoredExercise :=
  ⟨⟨[⟨"口", "kou", none⟩], "a"⟩, 0, ⟨0, 1, 0, -1, 1⟩, ⟨[], [], 0, 1, -1, 1, 0⟩⟩

/-- Concrete scored candidate used by the C5 witness. -/
def witnessScoredB : ScoredExercise :=
  ⟨⟨[⟨"口", "kou", none⟩], "b"⟩, 1, ⟨1, 0, 0, -1, 1⟩, ⟨[], [], 1, 0, -1, 1, 0⟩⟩

/-- Concrete scored candidate used by the C5 witness. -/
def witnessScoredC : ScoredExercise :=
  ⟨⟨[⟨"口", "kou", none⟩], "c"⟩, 2, ⟨1, 2, 0, -1, 1⟩, ⟨[], [], 1, 2, -1, 1, 0⟩⟩

/-- Witness for claim C5: the transitivity conjunct applied at three
concrete scored candidates, with both comparator premisses discharged by
computation. -/
theorem getExerciseCandidates_exact_sorted_total_witness :
    compareScored witnessScoredA witnessScoredB ≤ 0 ∧
    compareScored witnessScoredB witnessScoredC ≤ 0 ∧
    compareScored witnessScoredA witnessScoredC ≤ 0 := by
  have h1 : compareScored witnessScoredA witnessScoredB ≤ 0 := by
    norm_num [compareScored, witnessScoredA, witnessScoredB]
  have h2 : compareScored witnessScoredB witnessScoredC ≤ 0 := by
    norm_num [compareScored, witnessScoredB, witnessScoredC]
  exact ⟨h1, h2,
    (getExerciseCandidates_exact_sorted_total 0 "口" [] ⟨[], [], [], []⟩
      []).2.2.2.2.1 witnessScoredA witnessScoredB witnessScoredC h1 h2⟩

/-- Under a clock that always reads the same value `t`, the corpus-scan
fallback loop computes its fixed-`now` counterpart. -/
theorem fallbackLoop_fst_const {clock : ℕ → ℚ} {t : ℚ}
    (hc : ∀ i, clock i = t) (exercises : List Exercise)
    (progress : StudentProgress) (orderedWordList : List String) :
    ∀ (L : List Exercise) (k : ℕ),
      (fallbackLoop clock exercises progress orderedWordList L k).1 =
        fallbackLoopAt t exercises progress orderedWordList L := by
  intro L
  induction L with
  | nil =>
      intro k
      cases exercises <;> rfl
  | cons e rest ih =>
      intro k
      simp only [fallbackLoop, fallbackLoopAt, getExerciseCandidates, hc]
      cases getNewWords e progress with
      | nil =>
          dsimp only
          exact ih k
      | cons w ws =>
          dsimp only
          cases getExerciseCandidatesAt t w exercises progress orderedWordList with
          | nil =>
              dsimp only
              exact ih (k + 1)
          | cons c cs => rfl

/-- Under a constant clock, the new-word loop computes its fixed-`now`
counterpart. -/
theorem newWordLoop_fst_const {clock : ℕ → ℚ} {t : ℚ}
    (hc : ∀ i, clock i = t) (exercises : List Exercise)
    (progress : StudentProgress) (orderedWordList : List String) :
    ∀ (L : List String) (k : ℕ),
      (newWordLoop clock exercises progress orderedWordList L k).1 =
        newWordLoopAt t exercises progress orderedWordList L := by
  intro L
  induction L with
  | nil =>
      intro k
      exact fallbackLoop_fst_const hc exercises progress orderedWordList exercises k
  | cons w rest ih =>
      intro k
      simp only [newWordLoop, newWordLoopAt, getExerciseCandidates, hc]
      by_cases hn : (alookup progress.words w).isNone = true
      · rw [if_pos hn, if_pos hn]
        cases getExerciseCandidatesAt t w exercises progress orderedWordList with
        | nil =>
            dsimp only
            exact ih (k + 1)
        | cons c cs => rfl
      · rw [if_neg hn, if_neg hn]
        exact ih k

/-- Under a constant clock, the review loop computes its fixed-`now`
counterpart (the unlock test already uses the `now` read at the top of
`selectNextExercise`). -/
theorem reviewLoop_fst_const {clock : ℕ → ℚ} {t : ℚ}
    (hc : ∀ i, clock i = t) (exercises : List Exercise)
    (progress : StudentProgress) (orderedWordList : List String) :
    ∀ (L : List WordProgress) (k : ℕ),
      (reviewLoop t clock exercises progress orderedWordList L k).1 =
        reviewLoopAt t exercises progress orderedWordList L := by
  intro L
  induction L with
  | nil =>
      intro k
      exact newWordLoop_fst_const hc exercises progress orderedWordList
        orderedWordList k
  | cons rw rest ih =>
      intro k
      simp only [reviewLoop, reviewLoopAt, getExerciseCandidates, hc]
      cases (getExerciseCandidatesAt t rw.word exercises progress
          orderedWordList).filter
          (fun se => isUnlockedFor t progress rw.word se.exercise) with
      | nil =>
          dsimp only
          exact ih (k + 1)
      | cons se ses => rfl

/-- Under a constant clock, `selectNextExercise` computes its single-`now`
counterpart. -/
theorem selectNextExercise_fst_const {clock : ℕ → ℚ} {t : ℚ}
    (hc : ∀ i, clock i = t) (exercises : List Exercise)
    (progress : StudentProgress) (orderedWordList : List String) :
    (selectNextExercise clock exercises progress orderedWordList).1 =
      selectNextExerciseAt t exercises progress orderedWordList := by
  simp only [selectNextExercise, selectNextExerciseAt, hc]
  exact reviewLoop_fst_const hc exercises progress orderedWordList _ 1

/-- The unlocked candidates of a target word: its scored candidates
restricted to exercises whose other words are all known at `now`. -/
def unlockedCandidates (now : ℚ) (word : String) (exercises : List Exercise)
    (progress : StudentProgress) (orderedWordList : List String) :
    List ScoredExercise :=
  (getExerciseCandidatesAt now word exercises progress orderedWordList).filter
    (fun se => isUnlockedFor now progress word se.exercise)

/-- First exercise of the C9 clock experiment: target word plus a word that
crosses its review boundary between the two clock reads. -/
def c9ExA : Exercise := ⟨[⟨"学", "xue", none⟩, ⟨"吗", "ma", none⟩], "A"⟩

/-- Second exercise of the C9 clock experiment: target word plus a word that
stays known at both clock reads. -/
def c9ExB : Exercise := ⟨[⟨"学", "xue", none⟩, ⟨"呢", "ne", none⟩], "B"⟩

/-- The two-exercise corpus of the C9 clock experiment. -/
def c9Exercises : List Exercise := [c9ExA, c9ExB]

/-- Progress snapshot of the C9 clock experiment: "学" is overdue at the
first read (nextReview 500000), "吗" is known at 1000000 but due by 2000000
(nextReview 1500000), "呢" is known at both (nextReview 3000000). -/
def c9Progress : StudentProgress :=
  ⟨[("学", ⟨"学", 0, 500000, 30, 1⟩),
    ("吗", ⟨"吗", 0, 1500000, 30, 1⟩),
    ("呢", ⟨"呢", 0, 3000000, 30, 1⟩)], [], [], []⟩

/-- Score of `c9ExA` for target "学" at `now = 1000000` ("吗" known). -/
def c9ScoreA0 : ScoredExercise :=
  ⟨c9ExA, 0, ⟨1, 1, 0, -1, 2⟩,
    ⟨[("学", .review), ("吗", .known)], [("学", none), ("吗", none)],
      1, 1, -1, 2, 0⟩⟩

/-- Score of `c9ExB` for target "学" at `now = 1000000` ("呢" known). -/
def c9ScoreB0 : ScoredExercise :=
  ⟨c9ExB, 1, ⟨1, 1, 0, -1, 2⟩,
    ⟨[("学", .review), ("呢", .known)], [("学", none), ("呢", none)],
      1, 1, -1, 2, 0⟩⟩

/-- Score of `c9ExA` for target "学" at `now = 2000000` ("吗" now due). -/
def c9ScoreA1 : ScoredExercise :=
  ⟨c9ExA, 0, ⟨2, 2, 0, -1, 2⟩,
    ⟨[("学", .review), ("吗", .review)], [("学", none), ("吗", none)],
      2, 2, -1, 2, 0⟩⟩

/-- Score of `c9ExB` for target "学" at `now = 2000000` ("呢" still
known). -/
def c9ScoreB1 : ScoredExercise :=
  ⟨c9ExB, 1, ⟨1, 1, 0, -1, 2⟩,
    ⟨[("学", .review), ("呢", .known)], [("学", none), ("呢", none)],
      1, 1, -1, 2, 0⟩⟩

/-- Candidates of "学" at the first clock value: the tie keeps corpus
order, so `c9ExA` ranks first. -/
theorem c9_candidates_at_first_read :
    getExerciseCandidatesAt 1000000 "学" c9Exercises c9Progress [] =
      [c9ScoreA0, c9ScoreB0] := by
  have hAB : compareScored c9ScoreA0 c9ScoreB0 ≤ 0 := by
    norm_num [compareScored, c9ScoreA0, c9ScoreB0]
  simp only [getExerciseCandidatesAt]
  have hmap : ((c9Exercises.enum.map (fun p => (p.2, p.1))).filter
      (fun q => exerciseContainsWord q.1 "学")).map
      (fun q => scoreExercise 1000000 c9Progress [] q.1 q.2) =
      [c9ScoreA0, c9ScoreB0] := by decide
  rw [hmap]
  simp [List.insertionSort, List.orderedInsert, hAB]

/-- Candidates of "学" at the second clock value: "吗" flipped to due, so
`c9ExB` now ranks first. -/
theorem c9_candidates_at_second_read :
    getExerciseCandidatesAt 2000000 "学" c9Exercises c9Progress [] =
      [c9ScoreB1, c9ScoreA1] := by
  have hn : ¬ compareScored c9ScoreA1 c9ScoreB1 ≤ 0 := by
    norm_num [compareScored, c9ScoreA1, c9ScoreB1]
  simp only [getExerciseCandidatesAt]
  have hmap : ((c9Exercises.enum.map (fun p => (p.2, p.1))).filter
      (fun q => exerciseContainsWord q.1 "学")).map
      (fun q => scoreExercise 2000000 c9Progress [] q.1 q.2) =
      [c9ScoreA1, c9ScoreB1] := by decide
  rw [hmap]
  simp [List.insertionSort, List.orderedInsert, hn]

/-- Claim C9, counterexample.  Two clock streams that agree on the read made
at the top of `selectNextExercise` (both read 1000000 there) but differ on
the read that `getExerciseCandidates` itself performs (1000000 vs 2000000)
produce different selections (`c9ExA` at index 0 vs `c9ExB` at index 1):
the wall-clock time is not read once per invocation and held fixed — the
code re-reads `Date.now()` inside `getExerciseCandidates`, so the result is
not a function of a single `now`. -/
theorem selectNextExercise_not_single_now :
    (fun _ : ℕ => (1000000 : ℚ)) 0 =
      (fun i : ℕ => if i = 0 then (1000000 : ℚ) else 2000000) 0 ∧
    (selectNextExercise (fun _ => 1000000) c9Exercises c9Progress []).1 =
      some ⟨c9ExA, 0, some "学"⟩ ∧
    (selectNextExercise (fun i => if i = 0 then 1000000 else 2000000)
      c9Exercises c9Progress []).1 = some ⟨c9ExB, 1, some "学"⟩ ∧
    (selectNextExercise (fun _ => 1000000) c9Exercises c9Progress []).1 ≠
      (selectNextExercise (fun i => if i = 0 then 1000000 else 2000000)
        c9Exercises c9Progress []).1 := by
  have hwnr : wordsNeedingReview 1000000 c9Progress [] =
      [⟨"学", 0, 500000, 30, 1⟩] := by decide
  have h1 : (selectNextExercise (fun _ => 1000000) c9Exercises
      c9Progress []).1 = some ⟨c9ExA, 0, some "学"⟩ := by
    simp only [selectNextExercise]
    rw [hwnr]
    simp only [reviewLoop, getExerciseCandidates]
    rw [c9_candidates_at_first_read]
    have hfilter : [c9ScoreA0, c9ScoreB0].filter
        (fun se => isUnlockedFor 1000000 c9Progress "学" se.exercise) =
        [c9ScoreA0, c9ScoreB0] := by decide
    rw [hfilter]
    rfl
  have h2 : (selectNextExercise (fun i => if i = 0 then 1000000 else 2000000)
      c9Exercises c9Progress []).1 = some ⟨c9ExB, 1, some "学"⟩ := by
    simp only [selectNextExercise]
    norm_num
    rw [hwnr]
    simp only [reviewLoop, getExerciseCandidates]
    norm_num
    rw [c9_candidates_at_second_read]
    have hfilter : [c9ScoreB1, c9ScoreA1].filter
        (fun se => isUnlockedFor 1000000 c9Progress "学" se.exercise) =
        [c9ScoreB1, c9ScoreA1] := by decide
    rw [hfilter]
    rfl
  refine ⟨rfl, h1, h2, ?_⟩
  rw [h1, h2]
  decide

/-- Claim C9 as amended.  The selector is a function of a single `now` only
when the clock is held fixed across the pass: `selectNextExercise` reads the
clock once at its top for the overdue and unlock classifications, but each
`getExerciseCandidates` call re-reads the clock for its own known/review
scoring; when every read returns the same `t`, the whole pass computes the
pure single-`now` function `selectNextExerciseAt t`. -/
theorem selectNextExercise_single_now_under_fixed_clock (clock : ℕ → ℚ)
    (t : ℚ) (exercises : List Exercise) (progress : StudentProgress)
    (orderedWordList : List String) (hc : ∀ i, clock i = t) :
    (selectNextExercise clock exercises progress orderedWordList).1 =
      selectNextExerciseAt t exercises progress orderedWordList :=
  selectNextExercise_fst_const hc exercises progress orderedWordList

/-- Witness for the amended claim C9 at the constant clock 1000000 on the
C9 corpus. -/
theorem selectNextExercise_single_now_under_fixed_clock_witness :
    (∀ i : ℕ, (fun _ : ℕ => (1000000 : ℚ)) i = 1000000) ∧
    (selectNextExercise (fun _ => 1000000) c9Exercises c9Progress []).1 =
      selectNextExerciseAt 1000000 c9Exercises c9Progress [] :=
  ⟨fun _ => rfl,
    selectNextExercise_single_now_under_fixed_clock (fun _ => 1000000) 1000000
      c9Exercises c9Progress [] (fun _ => rfl)⟩

/-- The comparator is reflexively nonpositive. -/
theorem compareScored_self (a : ScoredExercise) : compareScored a a = 0 := by
  simp [compareScored]

/-- One review-loop step, phrased through `unlockedCandidates`. -/
theorem reviewLoopAt_cons (now : ℚ) (exercises : List Exercise)
    (progress : StudentProgress) (orderedWordList : List String)
    (rw : WordProgress) (rest : List WordProgress) :
    reviewLoopAt now exercises progress orderedWordList (rw :: rest) =
      match unlockedCandidates now rw.word exercises progress orderedWordList with
      | [] => reviewLoopAt now exercises progress orderedWordList rest
      | se :: _ => some ⟨se.exercise, se.index, some rw.word⟩ := rfl

/-- The review loop returns the head unlocked candidate of the first queue
entry that has one, skipping entries with none. -/
theorem reviewLoopAt_first_unlocked (now : ℚ) (exercises : List Exercise)
    (progress : StudentProgress) (orderedWordList : List String) :
    ∀ (L1 : List WordProgress) (rw : WordProgress) (L2 : List WordProgress)
      (se : ScoredExercise) (ses : List ScoredExercise),
      (∀ v ∈ L1, unlockedCandidates now v.word exercises progress
        orderedWordList = []) →
      unlockedCandidates now rw.word exercises progress orderedWordList =
        se :: ses →
      reviewLoopAt now exercises progress orderedWordList (L1 ++ rw :: L2) =
        some ⟨se.exercise, se.index, some rw.word⟩ := by
  intro L1
  induction L1 with
  | nil =>
      intro rw L2 se ses _ hse
      rw [List.nil_append, reviewLoopAt_cons, hse]
  | cons v L1 ih =>
      intro rw L2 se ses hskip hse
      rw [List.cons_append, reviewLoopAt_cons, hskip v (by simp)]
      exact ih rw L2 se ses (fun u hu => hskip u (by simp [hu])) hse

/-- Claim C3.  The selector's overdue queue is sorted ascending by
`nextReview`; for the first queue entry whose unlocked candidate list is
non-empty (entries before it having none are skipped), the selector returns
that entry's word as `targetWord` together with its lowest-scored unlocked
candidate. -/
theorem selectNextExercise_skips_locked_overdue (clock : ℕ → ℚ) (t : ℚ)
    (exercises : List Exercise) (progress : StudentProgress)
    (orderedWordList : List String) (L1 L2 : List WordProgress)
    (rw : WordProgress) (hc : ∀ i, clock i = t)
    (hqueue : wordsNeedingReview t progress orderedWordList = L1 ++ rw :: L2)
    (hskip : ∀ v ∈ L1,
      unlockedCandidates t v.word exercises progress orderedWordList = [])
    (hfound : unlockedCandidates t rw.word exercises progress
      orderedWordList ≠ []) :
    (wordsNeedingReview t progress orderedWordList).Pairwise
      (fun a b => a.nextReview ≤ b.nextReview) ∧
    ∃ se ses,
      unlockedCandidates t rw.word exercises progress orderedWordList =
        se :: ses ∧
      (∀ se' ∈ unlockedCandidates t rw.word exercises progress orderedWordList,
        compareScored se se' ≤ 0) ∧
      (selectNextExercise clock exercises progress orderedWordList).1 =
        some ⟨se.exercise, se.index, some rw.word⟩ := by
  constructor
  · unfold wordsNeedingReview
    letI : IsTotal WordProgress (fun a b => a.nextReview ≤ b.nextReview) :=
      ⟨fun a b => le_total _ _⟩
    letI : IsTrans WordProgress (fun a b => a.nextReview ≤ b.nextReview) :=
      ⟨fun a b c hab hbc => le_trans hab hbc⟩
    exact List.sorted_insertionSort _ _
  · obtain ⟨se, ses, hse⟩ :
        ∃ se ses, unlockedCandidates t rw.word exercises progress
          orderedWordList = se :: ses := by
      cases h : unlockedCandidates t rw.word exercises progress orderedWordList with
      | nil => exact absurd h hfound
      | cons se ses => exact ⟨se, ses, rfl⟩
    refine ⟨se, ses, hse, ?_, ?_⟩
    · have hp : (unlockedCandidates t rw.word exercises progress
          orderedWordList).Pairwise (fun a b => compareScored a b ≤ 0) :=
        List.Pairwise.filter _
          (getExerciseCandidatesAt_sorted t rw.word exercises progress
            orderedWordList)
      rw [hse] at hp
      intro se' hmem
      rw [hse] at hmem
      rcases List.mem_cons.mp hmem with rfl | hmem'
      · exact le_of_eq (compareScored_self se')
      · exact (List.pairwise_cons.mp hp).1 se' hmem'
    · rw [selectNextExercise_fst_const hc exercises progress orderedWordList]
      simp only [selectNextExerciseAt]
      rw [hqueue]
      exact reviewLoopAt_first_unlocked t exercises progress orderedWordList
        L1 rw L2 se ses hskip hse

/-- First exercise of the C3 scenario: contains the overdue "你" but also
the overdue "好", so it is locked for reviewing "你". -/
def c3Ex0 : Exercise := ⟨[⟨"你", "ni3", none⟩, ⟨"好", "hao3", none⟩], "Hello"⟩

/-- Second exercise of the C3 scenario: contains the overdue target "学"
and only the known future word "我", so it is unlocked. -/
def c3Ex1 : Exercise := ⟨[⟨"我", "wo3", none⟩, ⟨"学", "xue2", none⟩], "I study"⟩

/-- The two-exercise corpus of the C3 scenario. -/
def c3Exercises : List Exercise := [c3Ex0, c3Ex1]

/-- Progress snapshot of the C3 scenario at `now = 1000000`: "你", "好" and
"学" are overdue (999000, 999500, 999100), "我" is known until 4600000. -/
def c3Progress : StudentProgress :=
  ⟨[("你", ⟨"你", 940000, 999000, 30, 1⟩),
    ("好", ⟨"好", 940000, 999500, 30, 1⟩),
    ("学", ⟨"学", 940000, 999100, 30, 1⟩),
    ("我", ⟨"我", 940000, 4600000, 3600, 3⟩)], [], [], []⟩

/-- Ordered vocabulary list of the C3 scenario. -/
def c3Ordered : List String := ["你", "好", "我", "学"]

/-- The unlocked candidate of "学" in the C3 scenario. -/
def c3ScoreXue : ScoredExercise :=
  ⟨c3Ex1, 1, ⟨0, 1, 0, 3, 2⟩,
    ⟨[("我", .known), ("学", .review)], [("我", some 2), ("学", some 3)],
      0, 1, 3, 2, 0⟩⟩

/-- Witness for claim C3 on the repository's own selector scenario: "你" is
more overdue but locked, "学" is overdue and unlocked, and the selector
returns the "学" exercise at index 1. -/
theorem selectNextExercise_skips_locked_overdue_witness :
    (selectNextExercise (fun _ => 1000000) c3Exercises c3Progress
      c3Ordered).1 = some ⟨c3Ex1, 1, some "学"⟩ := by
  obtain ⟨-, se, ses, hse, -, hres⟩ := selectNextExercise_skips_locked_overdue
    (fun _ => 1000000) 1000000 c3Exercises c3Progress c3Ordered
    [⟨"你", 940000, 999000, 30, 1⟩] [⟨"好", 940000, 999500, 30, 1⟩]
    ⟨"学", 940000, 999100, 30, 1⟩
    (fun _ => rfl) (by decide) (by decide) (by decide)
  have hval : unlockedCandidates 1000000 "学" c3Exercises c3Progress
      c3Ordered = [c3ScoreXue] := by decide
  simp only [hval] at hse
  cases hse
  exact hres

/-- Membership in the overdue queue: progress entry values with
`nextReview ≤ now`, restricted to the ordered list when non-empty. -/
theorem mem_wordsNeedingReview_iff (t : ℚ) (p : StudentProgress)
    (l : List String) (wp : WordProgress) :
    wp ∈ wordsNeedingReview t p l ↔
      (wp ∈ p.words.map (·.2) ∧ wp.nextReview ≤ t ∧
        (l = [] ∨ wp.word ∈ l)) := by
  unfold wordsNeedingReview
  rw [List.mem_insertionSort, List.mem_filter, and_congr_right_iff]
  intro _
  by_cases h1 : wp.nextReview > t
  · rw [if_pos h1]
    simp [not_le.mpr h1]
  · rw [if_neg h1]
    have hle : wp.nextReview ≤ t := not_lt.mp h1
    by_cases h2 : l = []
    · subst h2
      simp [hle]
    · rw [if_neg (by simpa [List.isEmpty_iff] using h2)]
      simp [hle, h2]

/-- A target word returned by the corpus-scan fallback has no progress
entry. -/
theorem fallbackLoopAt_target (t : ℚ) (exercises : List Exercise)
    (p : StudentProgress) (l : List String) :
    ∀ (L : List Exercise) (r : SelectionResult) (w : String),
      fallbackLoopAt t exercises p l L = some r → r.targetWord = some w →
      alookup p.words w = none := by
  intro L
  induction L with
  | nil =>
      intro r w hr htw
      cases exercises with
      | nil => simp [fallbackLoopAt] at hr
      | cons e es =>
          simp only [fallbackLoopAt, Option.some.injEq] at hr
          cases hr
          simp at htw
  | cons e rest ih =>
      intro r w hr htw
      simp only [fallbackLoopAt] at hr
      cases hnw : getNewWords e p with
      | nil =>
          rw [hnw] at hr
          exact ih r w hr htw
      | cons w' ws' =>
          rw [hnw] at hr
          have hr' : (match getExerciseCandidatesAt t w' exercises p l with
              | [] => fallbackLoopAt t exercises p l rest
              | c :: _ =>
                  some (⟨c.exercise, c.index, some w'⟩ : SelectionResult)) =
              some r := hr
          cases hcand : getExerciseCandidatesAt t w' exercises p l with
          | nil =>
              rw [hcand] at hr'
              exact ih r w hr' htw
          | cons c cs =>
              rw [hcand] at hr'
              have hr2 : (⟨c.exercise, c.index, some w'⟩ : SelectionResult) = r :=
                Option.some.inj hr'
              subst hr2
              have hw : some w' = some w := htw
              have hmem : w' ∈ getNewWords e p := by
                rw [hnw]
                exact List.mem_cons_self w' ws'
              have hnone := (List.mem_filter.mp hmem).2
              rw [← Option.some.inj hw]
              exact Option.isNone_iff_eq_none.mp (by simpa using hnone)

/-- A target word returned by the ordered-list loop has no progress
entry. -/
theorem newWordLoopAt_target (t : ℚ) (exercises : List Exercise)
    (p : StudentProgress) (l : List String) :
    ∀ (L : List String) (r : SelectionResult) (w : String),
      newWordLoopAt t exercises p l L = some r → r.targetWord = some w →
      alookup p.words w = none := by
  intro L
  induction L with
  | nil =>
      intro r w hr htw
      exact fallbackLoopAt_target t exercises p l exercises r w hr htw
  | cons w' rest ih =>
      intro r w hr htw
      simp only [newWordLoopAt] at hr
      by_cases hn : (alookup p.words w').isNone = true
      · rw [if_pos hn] at hr
        cases hcand : getExerciseCandidatesAt t w' exercises p l with
        | nil =>
            rw [hcand] at hr
            exact ih r w hr htw
        | cons c cs =>
            rw [hcand] at hr
            have hr2 : (⟨c.exercise, c.index, some w'⟩ : SelectionResult) = r :=
              Option.some.inj hr
            subst hr2
            have hw : some w' = some w := htw
            rw [← Option.some.inj hw]
            exact Option.isNone_iff_eq_none.mp hn
      · rw [if_neg hn] at hr
        exact ih r w hr htw

/-- A target word returned by the review loop is the word of one of the
queue entries, unless the selection fell through to the new-word tiers, in
which case it has no progress entry. -/
theorem reviewLoopAt_target (t : ℚ) (exercises : List Exercise)
    (p : StudentProgress) (l : List String) :
    ∀ (L : List WordProgress) (r : SelectionResult) (w : String),
      reviewLoopAt t exercises p l L = some r → r.targetWord = some w →
      (∃ v ∈ L, v.word = w) ∨ alookup p.words w = none := by
  intro L
  induction L with
  | nil =>
      intro r w hr htw
      exact Or.inr (newWordLoopAt_target t exercises p l l r w hr htw)
  | cons rw' rest ih =>
      intro r w hr htw
      rw [reviewLoopAt_cons] at hr
      cases hu : unlockedCandidates t rw'.word exercises p l with
      | nil =>
          rw [hu] at hr
          rcases ih r w hr htw with ⟨v, hv, hvw⟩ | h
          · exact Or.inl ⟨v, List.mem_cons_of_mem _ hv, hvw⟩
          · exact Or.inr h
      | cons se ses =>
          rw [hu] at hr
          have hr2 : (⟨se.exercise, se.index, some rw'.word⟩ : SelectionResult) = r :=
            Option.some.inj hr
          subst hr2
          have hw : some rw'.word = some w := htw
          exact Or.inl ⟨rw', List.mem_cons_self rw' rest, Option.some.inj hw⟩

/-- Claim C4.  The overdue queue consists exactly of the progress entries
with `nextReview ≤ now` that belong to the ordered word list when that list
is non-empty (all overdue words when it is empty); consequently, with a
non-empty ordered list, a returned target word that is overdue (has a
progress entry with `nextReview ≤ now`) is always a member of the ordered
list. -/
theorem selectNextExercise_review_scope (clock : ℕ → ℚ) (t : ℚ)
    (exercises : List Exercise) (p : StudentProgress) (l : List String)
    (hc : ∀ i, clock i = t) :
    (∀ wp : WordProgress, wp ∈ wordsNeedingReview t p l ↔
      (wp ∈ p.words.map (·.2) ∧ wp.nextReview ≤ t ∧
        (l = [] ∨ wp.word ∈ l))) ∧
    (∀ (r : SelectionResult) (w : String) (wp : WordProgress), l ≠ [] →
      (selectNextExercise clock exercises p l).1 = some r →
      r.targetWord = some w → alookup p.words w = some wp →
      wp.nextReview ≤ t → w ∈ l) := by
  refine ⟨mem_wordsNeedingReview_iff t p l, ?_⟩
  intro r w wp hl hr htw halook _
  rw [selectNextExercise_fst_const hc exercises p l] at hr
  simp only [selectNextExerciseAt] at hr
  rcases reviewLoopAt_target t exercises p l _ r w hr htw with ⟨v, hv, hvw⟩ | hnone
  · rcases ((mem_wordsNeedingReview_iff t p l v).mp hv).2.2 with h0 | hmem
    · exact absurd h0 hl
    · exact hvw ▸ hmem
  · rw [halook] at hnone
    cases hnone

/-- Exercise containing the out-of-curriculum overdue word of the C4
scenario. -/
def c4Ex0 : Exercise := ⟨[⟨"X", "x", none⟩], "external word"⟩

/-- Exercise containing the in-curriculum overdue word of the C4
scenario. -/
def c4Ex1 : Exercise := ⟨[⟨"你", "ni3", none⟩], "you"⟩

/-- The two-exercise corpus of the C4 scenario. -/
def c4Exercises : List Exercise := [c4Ex0, c4Ex1]

/-- Progress snapshot of the C4 scenario at `now = 1000000`: "X" (not in
the ordered list) is more overdue than "你" (in the list). -/
def c4Progress : StudentProgress :=
  ⟨[("X", ⟨"X", 940000, 998000, 30, 1⟩),
    ("你", ⟨"你", 940000, 999000, 30, 1⟩)], [], [], []⟩

/-- Witness for claim C4 on the repository's own selector scenario: with
ordered list `["你"]`, the selector ignores the more overdue "X" and
returns "你", which indeed belongs to the list. -/
theorem selectNextExercise_review_scope_witness :
    (selectNextExercise (fun _ => 1000000) c4Exercises c4Progress ["你"]).1 =
      some ⟨c4Ex1, 1, some "你"⟩ ∧ ("你" : String) ∈ ["你"] := by
  have hres : (selectNextExercise (fun _ => 1000000) c4Exercises c4Progress
      ["你"]).1 = some ⟨c4Ex1, 1, some "你"⟩ := by
    rw [selectNextExercise_fst_const (fun _ => rfl) c4Exercises c4Progress
      ["你"]]
    decide
  refine ⟨hres, ?_⟩
  exact (selectNextExercise_review_scope (fun _ => 1000000) 1000000
    c4Exercises c4Progress ["你"] (fun _ => rfl)).2
    ⟨c4Ex1, 1, some "你"⟩ "你" ⟨"你", 940000, 999000, 30, 1⟩
    (by decide) hres rfl (by decide) (by decide)

/-- On the empty corpus the fallback loop returns nothing. -/
theorem fallbackLoop_fst_nil (clock : ℕ → ℚ) (p : StudentProgress)
    (l : List String) :
    ∀ (L : List Exercise) (k : ℕ), (fallbackLoop clock [] p l L k).1 = none := by
  intro L
  induction L with
  | nil => intro k; rfl
  | cons e rest ih =>
      intro k
      simp only [fallbackLoop, getExerciseCandidates]
      cases getNewWords e p with
      | nil =>
          dsimp only
          exact ih k
      | cons w ws =>
          dsimp only
          exact ih (k + 1)

/-- On the empty corpus the new-word loop returns nothing. -/
theorem newWordLoop_fst_nil (clock : ℕ → ℚ) (p : StudentProgress)
    (l : List String) :
    ∀ (L : List String) (k : ℕ), (newWordLoop clock [] p l L k).1 = none := by
  intro L
  induction L with
  | nil => intro k; exact fallbackLoop_fst_nil clock p l [] k
  | cons w rest ih =>
      intro k
      simp only [newWordLoop, getExerciseCandidates]
      by_cases hn : (alookup p.words w).isNone = true
      · rw [if_pos hn]
        exact ih (k + 1)
      · rw [if_neg hn]
        exact ih k

/-- On the empty corpus the review loop returns nothing. -/
theorem reviewLoop_fst_nil (clock : ℕ → ℚ) (now : ℚ) (p : StudentProgress)
    (l : List String) :
    ∀ (L : List WordProgress) (k : ℕ),
      (reviewLoop now clock [] p l L k).1 = none := by
  intro L
  induction L with
  | nil => intro k; exact newWordLoop_fst_nil clock p l l k
  | cons rw rest ih =>
      intro k
      simp only [reviewLoop, getExerciseCandidates]
      exact ih (k + 1)

/-- On a non-empty corpus the fallback loop always selects something. -/
theorem fallbackLoop_fst_isSome (clock : ℕ → ℚ) (exercises : List Exercise)
    (p : StudentProgress) (l : List String) (hex : exercises ≠ []) :
    ∀ (L : List Exercise) (k : ℕ),
      (fallbackLoop clock exercises p l L k).1 ≠ none := by
  intro L
  induction L with
  | nil =>
      intro k
      cases exercises with
      | nil => exact absurd rfl hex
      | cons e es => simp [fallbackLoop]
  | cons e rest ih =>
      intro k
      simp only [fallbackLoop, getExerciseCandidates]
      cases getNewWords e p with
      | nil =>
          dsimp only
          exact ih k
      | cons w ws =>
          dsimp only
          cases getExerciseCandidatesAt (clock k) w exercises p l with
          | nil =>
              dsimp only
              exact ih (k + 1)
          | cons c cs => simp
  
/-- On a non-empty corpus the new-word loop always selects something. -/
theorem newWordLoop_fst_isSome (clock : ℕ → ℚ) (exercises : List Exercise)
    (p : StudentProgress) (l : List String) (hex : exercises ≠ []) :
    ∀ (L : List String) (k : ℕ),
      (newWordLoop clock exercises p l L k).1 ≠ none := by
  intro L
  induction L with
  | nil => intro k; exact fallbackLoop_fst_isSome clock exercises p l hex exercises k
  | cons w rest ih =>
      intro k
      simp only [newWordLoop, getExerciseCandidates]
      by_cases hn : (alookup p.words w).isNone = true
      · rw [if_pos hn]
        cases getExerciseCandidatesAt (clock k) w exercises p l with
        | nil =>
            dsimp only
            exact ih (k + 1)
        | cons c cs => simp
      · rw [if_neg hn]
        exact ih k

/-- On a non-empty corpus the review loop always selects something. -/
theorem reviewLoop_fst_isSome (clock : ℕ → ℚ) (now : ℚ)
    (exercises : List Exercise) (p : StudentProgress) (l : List String)
    (hex : exercises ≠ []) :
    ∀ (L : List WordProgress) (k : ℕ),
      (reviewLoop now clock exercises p l L k).1 ≠ none := by
  intro L
  induction L with
  | nil => intro k; exact newWordLoop_fst_isSome clock exercises p l hex l k
  | cons rw rest ih =>
      intro k
      simp only [reviewLoop, getExerciseCandidates]
      cases (getExerciseCandidatesAt (clock k) rw.word exercises p l).filter
          (fun se => isUnlockedFor now p rw.word se.exercise) with
      | nil =>
          dsimp only
          exact ih (k + 1)
      | cons se ses => simp

/-- When every overdue word is locked, the review loop falls through to the
new-word tier. -/
theorem reviewLoopAt_all_locked (t : ℚ) (exercises : List Exercise)
    (p : StudentProgress) (l : List String) :
    ∀ L : List WordProgress,
      (∀ rw ∈ L, unlockedCandidates t rw.word exercises p l = []) →
      reviewLoopAt t exercises p l L = newWordLoopAt t exercises p l l := by
  intro L
  induction L with
  | nil => intro _; rfl
  | cons rw rest ih =>
      intro h
      rw [reviewLoopAt_cons, h rw (by simp)]
      exact ih (fun u hu => h u (by simp [hu]))

/-- When every no-progress word of the ordered list has no candidates, the
new-word loop falls through to the corpus scan. -/
theorem newWordLoopAt_all_skip (t : ℚ) (exercises : List Exercise)
    (p : StudentProgress) (l : List String) :
    ∀ L : List String,
      (∀ w ∈ L, alookup p.words w = none →
        getExerciseCandidatesAt t w exercises p l = []) →
      newWordLoopAt t exercises p l L = fallbackLoopAt t exercises p l exercises := by
  intro L
  induction L with
  | nil => intro _; rfl
  | cons w rest ih =>
      intro h
      simp only [newWordLoopAt]
      by_cases hn : (alookup p.words w).isNone = true
      · rw [if_pos hn, h w (by simp) (Option.isNone_iff_eq_none.mp hn)]
        exact ih (fun u hu hnu => h u (by simp [hu]) hnu)
      · rw [if_neg hn]
        exact ih (fun u hu hnu => h u (by simp [hu]) hnu)

/-- When no exercise has new words, the corpus scan reaches the absolute
fallback. -/
theorem fallbackLoopAt_all_no_new (t : ℚ) (exercises : List Exercise)
    (p : StudentProgress) (l : List String) :
    ∀ L : List Exercise,
      (∀ e ∈ L, getNewWords e p = []) →
      fallbackLoopAt t exercises p l L =
        (match exercises with
          | [] => none
          | e :: _ => some ⟨e, 0, none⟩) := by
  intro L
  induction L with
  | nil => intro _; rfl
  | cons e rest ih =>
      intro h
      simp only [fallbackLoopAt]
      rw [h e (by simp)]
      exact ih (fun u hu => h u (by simp [hu]))

/-- Claim C8.  `selectNextExercise` (a total function — the embedding has no
failure path) returns nothing exactly when the exercise corpus is empty;
and on a non-empty corpus where the review tier finds no unlocked sentence
and the new-word tiers find nothing to introduce, it returns the exercise
at index 0 with no target word. -/
theorem selectNextExercise_null_iff_empty (clock : ℕ → ℚ) (t : ℚ)
    (exercises : List Exercise) (p : StudentProgress) (l : List String) :
    ((selectNextExercise clock exercises p l).1 = none ↔ exercises = []) ∧
    ((∀ i, clock i = t) →
      ∀ (e : Exercise) (rest : List Exercise), exercises = e :: rest →
      (∀ rw ∈ wordsNeedingReview t p l,
        unlockedCandidates t rw.word exercises p l = []) →
      (∀ w ∈ l, alookup p.words w = none →
        getExerciseCandidatesAt t w exercises p l = []) →
      (∀ e' ∈ exercises, getNewWords e' p = []) →
      (selectNextExercise clock exercises p l).1 = some ⟨e, 0, none⟩) := by
  constructor
  · constructor
    · intro h
      by_contra hne
      exact reviewLoop_fst_isSome clock (clock 0) exercises p l hne _ 1 h
    · intro h
      subst h
      exact reviewLoop_fst_nil clock (clock 0) p l _ 1
  · intro hc e rest hex h1 h2 h3
    rw [selectNextExercise_fst_const hc exercises p l]
    simp only [selectNextExerciseAt]
    rw [reviewLoopAt_all_locked t exercises p l _ h1,
      newWordLoopAt_all_skip t exercises p l l h2,
      fallbackLoopAt_all_no_new t exercises p l exercises h3, hex]

/-- The one-exercise corpus of the C8 scenario. -/
def c8Ex : Exercise := ⟨[⟨"水", "shui", none⟩], "water"⟩

/-- The C8 corpus. -/
def c8Exercises : List Exercise := [c8Ex]

/-- Progress snapshot of the C8 scenario at `now = 1000000`: the only word
is known until 2000000, so no tier matches. -/
def c8Progress : StudentProgress :=
  ⟨[("水", ⟨"水", 0, 2000000, 3600, 1⟩)], [], [], []⟩

/-- Witness for claim C8: on the non-empty C8 corpus with no overdue words
and no new words, the selector returns the exercise at index 0 with no
target word. -/
theorem selectNextExercise_null_iff_empty_witness :
    (selectNextExercise (fun _ => 1000000) c8Exercises c8Progress
      ["水"]).1 = some ⟨c8Ex, 0, none⟩ :=
  (selectNextExercise_null_iff_empty (fun _ => 1000000) 1000000 c8Exercises
    c8Progress ["水"]).2 (fun _ => rfl) c8Ex [] rfl
    (by decide) (by decide) (by decide)
